import Mathlib

/-!
Shallow embedding of the two analysis/builder modules of this repository:

* `Src_detection/Src/analysis/library_mcd.py`, class `NormDescriptorHistogram`
  (histogram-stratified subsampling of squared descriptor norms);
* `Src_detection/Src/structure/compact_phases_builder.py`, class `C15Builder`
  (cluster-center generation, coordinate expansion with deduplication,
  removal pass and final cell rescaling).

Modelling conventions:
* machine floats are modelled by exact rationals `ℚ`; the single genuinely
  transcendental operation (`np.power(x, 0.3333)` in `BuildC15Cluster`) is
  modelled over `ℝ` with `Real.rpow`;
* `numpy` boolean-mask indexing over parallel arrays becomes `List.filter`
  over zipped lists;
* in-place `random.shuffle` returns `None` in Python; where the *shuffled
  list* is used afterwards (`fill_histogram`) the shuffle is abstracted as an
  explicit function argument, and where the *return value* is used
  (`AgnosticPerfectC15Cluster`) it is modelled as `none`;
* Python exceptions are modelled with `Except String`.
-/

namespace LibraryMcd

/-- Python `int(x)`: truncation toward zero. -/
def pyInt (q : ℚ) : ℤ := if 0 ≤ q then ⌊q⌋ else ⌈q⌉

/-- `np.amin` over a list of rationals. `np.amin` raises on an empty array;
all uses below are guarded by nonemptiness (via `Except` or hypotheses). -/
def aminL : List ℚ → ℚ
  | [] => 0
  | x :: xs => xs.foldl min x

/-- `np.amax` over a list of rationals (same convention as `aminL`). -/
def amaxL : List ℚ → ℚ
  | [] => 0
  | x :: xs => xs.foldl max x

/-- The `Bin` `TypedDict` of `library_mcd.py`.  `density` starts out as
Python `None`, hence `Option ℚ`. -/
structure HBin where
  min : ℚ
  max : ℚ
  list_norm : List ℚ
  list_id : List ℕ
  density : Option ℚ
  deriving Repr, DecidableEq, Inhabited

/-- The state of a `NormDescriptorHistogram` object.  `descriptors` is the
row list of the concatenated descriptor matrix. -/
structure Histo where
  descriptors : List (List ℚ)
  nb_bin : ℕ
  array_norm_square : List ℚ
  id_list : List ℕ
  min_dis : ℚ
  max_dis : ℚ
  bins : List HBin
  deriving Repr, DecidableEq, Inhabited

/-- Squared norm of one descriptor row: `np.sum(row**2)`. -/
def normSq (row : List ℚ) : ℚ := (row.map (fun x => x * x)).sum

/-- `self.array_norm_square = np.sum(self.descriptors**2, axis=1)`. -/
def normsOf (descriptors : List (List ℚ)) : List ℚ := descriptors.map normSq

/-- `NormDescriptorHistogram.__init__` state setup (everything before the
final `self.fill_histogram()` call). -/
def histoInit (descriptors : List (List ℚ)) (nb_bin : ℕ) : Histo :=
  let norms := normsOf descriptors
  let m := aminL norms
  let M := amaxL norms
  let increment := (M - m) / (nb_bin : ℚ)
  { descriptors := descriptors
    nb_bin := nb_bin
    array_norm_square := norms
    id_list := List.range descriptors.length
    min_dis := m
    max_dis := M
    bins := (List.range nb_bin).map (fun (k : ℕ) =>
      { min := m + (k : ℚ) * increment
        max := m + ((k : ℚ) + 1) * increment
        list_norm := []
        list_id := []
        density := none }) }

/-- The boolean mask `(v > bin.min) & (v <= bin.max)`. -/
def binMask (lo hi v : ℚ) : Bool := decide (lo < v ∧ v ≤ hi)

/-- `NormDescriptorHistogram.fill_histogram`.  The in-place
`random.shuffle(data_bin['list_id'])` is abstracted as `shuffle` (theorems
assume it permutes its input). -/
def fill_histogram (shuffle : List ℕ → List ℕ) (h : Histo) : Histo :=
  -- first loop: `list_norm += array_norm_square[mask]`, `list_id += id_list[mask]`
  let bins1 := h.bins.map (fun b =>
    { b with
      list_norm := b.list_norm ++ h.array_norm_square.filter (binMask b.min b.max)
      list_id := b.list_id ++
        ((h.id_list.zip h.array_norm_square).filter
          (fun (p : ℕ × ℚ) => binMask b.min b.max p.2)).map Prod.fst })
  -- second loop: shuffle ids and set raw densities `len(list_norm)/N`
  let N : ℚ := (h.descriptors.length : ℚ)
  let bins2 := bins1.map (fun b =>
    { b with
      list_id := shuffle b.list_id
      density := some ((b.list_norm.length : ℚ) / N) })
  let sum_density := (bins2.map (fun b => b.density.getD 0)).sum
  -- third loop: `density += (1.0 - sum_density)/nb_bin`
  let miss_density := (1 - sum_density) / (h.nb_bin : ℚ)
  { h with bins := bins2.map (fun b =>
      { b with density := b.density.map (fun d => d + miss_density) }) }

/-- The whole `NormDescriptorHistogram(...)` construction, with the two
failure points of the Python code made explicit: `np.amin`/`np.amax` raise on
an empty array, and `(1.0 - sum_density)/self.nb_bin` in `fill_histogram`
raises `ZeroDivisionError` when `nb_bin == 0` (the bin-width division
`(max-min)/nb_bin` itself is `np.float64/0`, which only warns and yields
`inf`; with `nb_bin == 0` no bin is ever created, and construction dies at
the density-correction division). -/
def histoMake (shuffle : List ℕ → List ℕ) (descriptors : List (List ℚ))
    (nb_bin : ℕ) : Except String Histo :=
  if descriptors = [] then
    .error "zero-size array to reduction operation minimum"
  else if nb_bin = 0 then
    .error "ZeroDivisionError: float division by zero"
  else
    .ok (fill_histogram shuffle (histoInit descriptors nb_bin))

/-- Default bin count when the `nb_bin` argument is `None`:
`int(0.05*len(list_atoms))`.  The float literal `0.05` is modelled by the
exact rational `1/20`; for the small arguments the claims quantify over the
integer parts agree. -/
def defaultNbBin (n : ℕ) : ℤ := pyInt ((1 / 20 : ℚ) * (n : ℚ))

/-- Lower boundary of bin `k` of the histogram built from `descriptors`
with `nb_bin = B`: `min_dis + k*increment`. -/
def binLo (d : List (List ℚ)) (B k : ℕ) : ℚ :=
  aminL (normsOf d) + (k : ℚ) * ((amaxL (normsOf d) - aminL (normsOf d)) / (B : ℚ))

/-- Upper boundary of bin `k`: `min_dis + (k+1)*increment`. -/
def binHi (d : List (List ℚ)) (B k : ℕ) : ℚ :=
  aminL (normsOf d) + ((k : ℚ) + 1) * ((amaxL (normsOf d) - aminL (normsOf d)) / (B : ℚ))

/-- The `list_norm` contents of bin `k` after `fill_histogram`. -/
def binNorms (d : List (List ℚ)) (B k : ℕ) : List ℚ :=
  (normsOf d).filter (binMask (binLo d B k) (binHi d B k))

/-- The `list_id` contents of bin `k` after `fill_histogram` (shuffled). -/
def binIds (shuffle : List ℕ → List ℕ) (d : List (List ℚ)) (B k : ℕ) : List ℕ :=
  shuffle ((((List.range d.length).zip (normsOf d)).filter
    (fun (p : ℕ × ℚ) => binMask (binLo d B k) (binHi d B k) p.2)).map Prod.fst)

/-- Raw density of bin `k`: `len(list_norm)/N`. -/
def rawDensity (d : List (List ℚ)) (B k : ℕ) : ℚ :=
  ((binNorms d B k).length : ℚ) / (d.length : ℚ)

/-- `sum_density` accumulated over all bins. -/
def sumRawDensity (d : List (List ℚ)) (B : ℕ) : ℚ :=
  ((List.range B).map (rawDensity d B)).sum

/-- `miss_density = (1.0 - sum_density)/nb_bin`. -/
def missDensity (d : List (List ℚ)) (B : ℕ) : ℚ :=
  (1 - sumRawDensity d B) / (B : ℚ)

/-- Corrected density of bin `k` after the uniform shortfall distribution. -/
def corrDensity (d : List (List ℚ)) (B k : ℕ) : ℚ :=
  rawDensity d B k + missDensity d B

/-- One iteration of the `for sl_bin in selection_bin` loop of
`histogram_sample`: if the selected bin still has ids, append its last id to
the selection and pop it; otherwise the draw contributes nothing.  (An
out-of-range bin index cannot occur: `np.random.choice` only returns indices
from `range(nb_bin)`; the `none` branch is unreachable under that guard.) -/
def sampleStep (bins : List HBin) (acc : List ℕ) (s : ℕ) : List HBin × List ℕ :=
  match bins[s]? with
  | none => (bins, acc)
  | some b =>
    match b.list_id.getLast? with
    | none => (bins, acc)
    | some lastId =>
      (bins.set s { b with list_id := b.list_id.dropLast }, acc ++ [lastId])

/-- `NormDescriptorHistogram.histogram_sample`.  The random draw
`np.random.choice(range(nb_bin), nb_selected, p=densities)` is abstracted as
the list `sel` of selected bin indices (its length is `nb_selected`, all its
entries lie in `range(nb_bin)`).  Returns the selected ids together with the
corresponding descriptor rows `self.descriptors[list_id_selected]`. -/
def histogram_sample (h : Histo) (sel : List ℕ) : List ℕ × List (List ℚ) :=
  let final := sel.foldl (fun st s => sampleStep st.1 st.2 s) (h.bins, [])
  (final.2, final.2.filterMap (fun i => h.descriptors.get? i))

end LibraryMcd

namespace CompactPhases

/-- A 3-component coordinate row (positions, offsets). -/
abbrev Pos := List ℚ

/-- Componentwise sum of two coordinate rows (`numpy` broadcasting `+`). -/
def rowAdd (a b : Pos) : Pos := List.zipWith (· + ·) a b

/-- Squared Euclidean distance between two coordinate rows.  The source
compares `np.linalg.norm(r - p) < tolerance`; for `tolerance ≥ 0` this is
equivalent to `distSq r p < tolerance^2`, which keeps the embedding inside
`ℚ`. -/
def distSq (a b : Pos) : ℚ := ((List.zipWith (· - ·) a b).map (fun x => x * x)).sum

/-- Modelled from the spec: the per-type geometric template
(`MetaOctahedron().typeOcta[t]` from `compact_phases_library`, which is not
part of the sources under verification).  Per the spec it is "fixed,
precomputed geometric data (site offsets relative to a center, per
type-variant)": tetrahedron offsets (the columns of `atom`, iterated as
`atom.T`), per-tetrahedron site offsets (`gaos[:,:,id_tetra]`), connectivity
offsets (`link`) and a raw 3×6 matrix of the six removal offsets
(`removeatom`, whose *columns* are the offsets, iterated as
`removeatom.T`). -/
structure OctaType where
  atom : List Pos
  gaos : List (List Pos)
  link : List Pos
  removeatom : List (List ℚ)
  deriving Repr, DecidableEq, Inhabited

/-- One entry of the `C15Center` dictionary. -/
structure C15Center where
  center : Pos
  type : String
  deriving Repr, DecidableEq, Inhabited

/-- The candidate positions enumerated by `build_C15_system`, in program
order: for every center, for every tetrahedron offset `tetra` (paired with
its `gaos[:,:,id_tetra]` block), for every gaos row `g`, the position
`center + tetra + 0.5*g`. -/
def c15Candidates (typeOcta : String → OctaType) (centers : List C15Center) : List Pos :=
  centers.flatMap (fun c =>
    (((typeOcta c.type).atom).zip ((typeOcta c.type).gaos)).flatMap
      (fun (tg : Pos × List Pos) =>
        tg.2.map (fun g =>
          rowAdd (rowAdd c.center tg.1) (g.map (fun x => (1 / 2 : ℚ) * x)))))

/-- One iteration of the duplicate check of `build_C15_system`: if the
accepted list is empty the position is appended; otherwise it is appended
exactly when `np.amin` of the distances to all previously accepted positions
is not below the tolerance (distances are compared squared, see `distSq`). -/
def dedupStep (tolerance : ℚ) (acc : List Pos) (p : Pos) : List Pos :=
  match acc with
  | [] => [p]
  | q :: qs =>
    if LibraryMcd.aminL ((q :: qs).map (fun r => distSq r p)) < tolerance ^ 2 then
      acc
    else
      acc ++ [p]

/-- `C15Builder.build_C15_system`: enumerate all candidate positions and
keep those passing the incremental duplicate check.  (Only positions are
modelled; every accepted position also appends one `Atom` of the same
element, so the returned `Atoms` object is in bijection with this list.) -/
def build_C15_system (typeOcta : String → OctaType) (centers : List C15Center)
    (tolerance : ℚ) : List Pos :=
  (c15Candidates typeOcta centers).foldl (dedupStep tolerance) []

/-- `numpy` matrix transpose of a rectangular row-major matrix:
entry `[j][i] = m[i][j]`. -/
def matT (m : List (List ℚ)) : List (List ℚ) :=
  (List.range (m.headD []).length).map (fun j => m.map (fun row => row.getD j 0))

/-- The raw data of
`np.array([typeOcta[type].removeatom.T + center for each center])`,
an `(n, 6, 3)` float array, flattened in row-major (C) order. -/
def toRemoveFlat (typeOcta : String → OctaType) (centers : List C15Center) : List ℚ :=
  (centers.map (fun c =>
    ((matT (typeOcta c.type).removeatom).map (fun row => rowAdd row c.center)).flatten)).flatten

/-- `ToRemoveCoordinate.reshape((3, len(centers)*6)).T` as executed by the
source: reinterpret the row-major data as a 3×(6n) matrix and transpose it,
so row `j` of the result is `[flat[j], flat[w + j], flat[2*w + j]]` with
`w = 6*len(centers)`.  (Note this is *not* the same as reshaping to
`(6n, 3)`.) -/
def toRemoveCoordinate (typeOcta : String → OctaType) (centers : List C15Center) : List Pos :=
  let flat := toRemoveFlat typeOcta centers
  let w := 6 * centers.length
  (List.range w).map (fun j => [flat.getD j 0, flat.getD (w + j) 0, flat.getD (2 * w + j) 0])

/-- Modelled from the spec: the *intended* removal coordinates — "for each
center, that center's position plus each of the six removal offsets of its
type's template" (the rows of `removeatom.T + center`, stacked per
center). -/
def specRemoveCoordinate (typeOcta : String → OctaType) (centers : List C15Center) : List Pos :=
  (centers.map (fun c =>
    (matT (typeOcta c.type).removeatom).map (fun row => rowAdd row c.center))).flatten

/-- `C15Builder.remove_atoms_in_system`: keep exactly the positions of
`system` whose `np.amin` distance to `toRemoveCoordinate` is not below the
tolerance (squared comparison, see `distSq`; `np.amin` needs a nonempty
coordinate array, i.e. at least one center — `List.any` agrees with
`np.amin ... < tol` whenever the array is nonempty).  The source operates on
a copy (`system.copy()`) and `del`etes the collected indices, which keeps
the surviving atoms in their original order, exactly as `List.filter`
does. -/
def remove_atoms_in_system (typeOcta : String → OctaType) (centers : List C15Center)
    (tolerance : ℚ) (system : List Pos) : List Pos :=
  system.filter (fun pos =>
    !((toRemoveCoordinate typeOcta centers).any
        (fun r => decide (distSq r pos < tolerance ^ 2))))

/-- Modelled from the spec: a concrete template instance for the removal
pass ("the six removal offsets of its type's template" — the spec fixes
their number, not their values).  Its removal offsets (the columns of the
3×6 `removeatom` matrix) are `(1,2,3), (7,8,9), (13,14,15), (19,20,21),
(25,26,27), (31,32,33)`. -/
def scrambleOcta : String → OctaType := fun _ =>
  { atom := []
    gaos := []
    link := []
    removeatom := [[1, 7, 13, 19, 25, 31], [2, 8, 14, 20, 26, 32], [3, 9, 15, 21, 27, 33]] }

/-- `C15Builder.compute_cell_size_draft`:
`int(np.ceil(size*scale_factor/a0))` (identical in all three coordinates;
`np.ceil` of a rational is integral, so the outer `int(...)` is exact). -/
def compute_cell_size_draft (a0 scale_factor size : ℚ) : ℤ :=
  ⌈size * scale_factor / a0⌉

/-- Python dict assignment `d[k] = v` on an insertion-ordered association
list: replace in place if the key exists, else append. -/
def dictSet (k : ℕ) (v : C15Center) : List (ℕ × C15Center) → List (ℕ × C15Center)
  | [] => [(k, v)]
  | p :: rest => if p.1 = k then (k, v) :: rest else p :: dictSet k v rest

/-- `np.array([int(np.ceil(0.5*size)) for _ in range(3)])`. -/
def centroidRow (size : ℤ) : Pos :=
  let c := ⌈(size : ℚ) / 2⌉
  [(c : ℚ), (c : ℚ), (c : ℚ)]

/-- `C15Builder.compute_number_perfect_C15`:
`int((np.ceil(size/minimal_size) + 1)**2)`. -/
def compute_number_perfect_C15 (minimal_size size : ℚ) : ℤ :=
  (⌈size / minimal_size⌉ + 1) ^ 2

/-- `C15Builder.AgnosticPerfectC15Cluster`.  The code computes
`minimal_cluster_size = np.sqrt(3)*a0`; the irrational float is passed here
as the explicit argument `minimal_cluster_size`.  Returns the new
`self.size` together with the updated `centerC15` dictionary, or the raised
exception.

In the `else` branch the source stores
`'link': random.shuffle(...)`; `random.shuffle` shuffles in place and
returns `None`, so the stored link list is `None`.  Every iteration of
`for idx_C15 in range(1, Nb_C15)` then immediately evaluates
`idx_C15 % len(self.explorated_dict['link'])`, i.e. `len(None)`, which
raises `TypeError`; consequently the branch raises whenever the loop body
runs at all (`Nb_C15 > 1`). -/
def AgnosticPerfectC15Cluster (a0 scale_factor : ℚ)
    (minimal_cluster_size cluster_size : ℚ)
    (centers : List (ℕ × C15Center)) : Except String (ℤ × List (ℕ × C15Center)) :=
  if cluster_size < minimal_cluster_size then
    let size := compute_cell_size_draft a0 scale_factor minimal_cluster_size
    .ok (size, dictSet 0 ⟨centroidRow size, "type1"⟩ centers)
  else
    let size := compute_cell_size_draft a0 scale_factor cluster_size
    let nbC15 := compute_number_perfect_C15 minimal_cluster_size cluster_size
    let centers1 := dictSet 0 ⟨centroidRow size, "type1"⟩ centers
    if 1 < nbC15 then
      .error "TypeError: object of type NoneType has no len()"
    else
      .ok (size, centers1)

/-- The XML coherence check of `C15Builder` (written with underscores in
the source; renamed here).  A record of the parsed `centerC15`
dictionary is modelled by its key together with its key list (the insertion
order of `'center'`/`'type'`); the source raises
`TimeoutError(f'Missing type or center for {key}')` for the first record
whose key list is neither `['type', 'center']` nor `['center', 'type']`. -/
def checkOutParser : List (ℕ × List String) → Except String Unit
  | [] => .ok ()
  | (k, keys) :: rest =>
    if keys = ["type", "center"] ∨ keys = ["center", "type"] then
      checkOutParser rest
    else
      .error ("Missing type or center for " ++ toString k)

/-- `lenght_scale = np.power(len(C15_system)/Natoms_bulk, 0.3333)` from
`C15Builder.BuildC15Cluster` (the float literal `0.3333` — note: not
`1/3`). -/
noncomputable def lengthScale (nMerged nBulk : ℕ) : ℝ :=
  ((nMerged : ℝ) / (nBulk : ℝ)) ^ (0.3333 : ℝ)

/-- The cell-rescaling tail of `C15Builder.BuildC15Cluster`: the extra
(C15) atoms and the bulk both go through `remove_atoms_in_system`, the two
systems are merged, and each cell entry is multiplied by
`lenght_scale * a0`.  `cell` stands for one entry of the 3×3 cell matrix
(the multiplication is entrywise). -/
noncomputable def buildC15RescaledCell (typeOcta : String → OctaType)
    (centers : List C15Center) (tolerance : ℚ) (bulk : List Pos)
    (cell a0 : ℝ) : ℝ :=
  let extra := remove_atoms_in_system typeOcta centers tolerance
    (build_C15_system typeOcta centers tolerance)
  let nBulk := bulk.length
  let bulk2 := remove_atoms_in_system typeOcta centers tolerance bulk
  let merged := bulk2 ++ extra
  cell * lengthScale merged.length nBulk * a0

end CompactPhases

/-! ## Theorems -/

namespace LibraryMcd

/-- The bins of a freshly constructed histogram, in closed form. -/
lemma fill_histoInit_bins (shuffle : List ℕ → List ℕ) (d : List (List ℚ)) (B : ℕ) :
    (fill_histogram shuffle (histoInit d B)).bins =
      (List.range B).map (fun k =>
        { min := binLo d B k
          max := binHi d B k
          list_norm := binNorms d B k
          list_id := binIds shuffle d B k
          density := some (corrDensity d B k) }) := by
  apply List.ext_getElem
  · simp [fill_histogram, histoInit]
  · intro i h1 h2
    simp only [fill_histogram, histoInit, binLo, binHi, binNorms, binIds, corrDensity,
      rawDensity, sumRawDensity, missDensity, List.map_map, Function.comp_def,
      List.getElem_map, List.getElem_range, List.nil_append, Option.getD_some,
      Option.map_some']
    rfl

/-- Sum of a constant-shifted map. -/
lemma sum_map_add_const {α : Type} (l : List α) (f : α → ℚ) (c : ℚ) :
    (l.map (fun x => f x + c)).sum = (l.map f).sum + l.length * c := by
  induction l with
  | nil => simp
  | cons a t ih => simp [ih]; ring

/-- C3: for every constructed `NormDescriptorHistogram` with `nb_bin = B ≥ 1`,
after the density correction (raw density `|bin|/N` per bin, then the
shortfall `1 - sum(raw)` distributed uniformly, `shortfall/B` added to every
bin) the corrected per-bin densities sum to exactly 1 in exact arithmetic,
and each bin's corrected density equals `|bin|/N + (1 - Σ_j |bin_j|/N)/B`. -/
theorem histogram_density_correction_C3 (shuffle : List ℕ → List ℕ)
    (d : List (List ℚ)) (B : ℕ) (hB : 1 ≤ B) :
    (((fill_histogram shuffle (histoInit d B)).bins.map
        (fun b => b.density.getD 0)).sum = 1)
    ∧ ∀ b ∈ (fill_histogram shuffle (histoInit d B)).bins,
        b.density = some ((b.list_norm.length : ℚ) / (d.length : ℚ) +
          (1 - ((fill_histogram shuffle (histoInit d B)).bins.map
            (fun b2 => (b2.list_norm.length : ℚ) / (d.length : ℚ))).sum) / (B : ℚ)) := by
  have hB0 : (B : ℚ) ≠ 0 := Nat.cast_ne_zero.mpr (by omega)
  constructor
  · rw [fill_histoInit_bins]
    simp only [List.map_map, Function.comp_def, Option.getD_some, corrDensity]
    rw [sum_map_add_const]
    simp only [List.length_range, missDensity]
    have : ((List.range B).map (rawDensity d B)).sum = sumRawDensity d B := rfl
    rw [this]
    field_simp
  · rw [fill_histoInit_bins]
    intro b hb
    simp only [List.mem_map, List.mem_range] at hb
    obtain ⟨k, hk, rfl⟩ := hb
    simp only [List.map_map, Function.comp_def]
    simp only [corrDensity, rawDensity, missDensity, sumRawDensity]
    rfl

/-- Witness for C3 at a concrete input (`descriptors = [[1],[2]]`, two
bins, identity shuffle). -/
theorem histogram_density_correction_C3_witness :
    1 ≤ 2
    ∧ ((((fill_histogram id (histoInit [[1], [2]] 2)).bins.map
        (fun b => b.density.getD 0)).sum = 1)
    ∧ ∀ b ∈ (fill_histogram id (histoInit [[1], [2]] 2)).bins,
        b.density = some ((b.list_norm.length : ℚ) / (([[1], [2]] : List (List ℚ)).length : ℚ) +
          (1 - ((fill_histogram id (histoInit [[1], [2]] 2)).bins.map
            (fun b2 => (b2.list_norm.length : ℚ) /
              (([[1], [2]] : List (List ℚ)).length : ℚ))).sum) / ((2 : ℕ) : ℚ))) :=
  ⟨by norm_num, histogram_density_correction_C3 id [[1], [2]] 2 (by norm_num)⟩

/-- C10: `NormDescriptorHistogram` construction has the unguarded
precondition `nb_bin ≥ 1`: with `nb_bin` omitted the default
`int(0.05*len(list_atoms))` is `0` for every input list of fewer than 20
structures (making the bin-width divisor zero and construction fail),
while under `nb_bin ≥ 1` (and a nonempty dataset, needed by `np.amin`)
construction succeeds. -/
theorem nb_bin_precondition_C10 :
    (∀ n : ℕ, n < 20 → defaultNbBin n = 0)
    ∧ (∀ (shuffle : List ℕ → List ℕ) (d : List (List ℚ)) (B : ℕ),
        1 ≤ B → d ≠ [] →
        histoMake shuffle d B = .ok (fill_histogram shuffle (histoInit d B))) := by
  constructor
  · intro n hn
    simp only [defaultNbBin, pyInt]
    rw [if_pos (by positivity)]
    rw [Int.floor_eq_zero_iff]
    constructor
    · positivity
    · have : (n : ℚ) < 20 := by exact_mod_cast hn
      linarith
  · intro shuffle d B hB hd
    have hB0 : B ≠ 0 := by omega
    simp [histoMake, hd, hB0]

/-- Witness for C10 at concrete inputs (19 structures for the default;
`nb_bin = 1` with a one-row dataset for successful construction). -/
theorem nb_bin_precondition_C10_witness :
    defaultNbBin 19 = 0
    ∧ histoMake id [[1]] 1 = .ok (fill_histogram id (histoInit [[1]] 1)) :=
  ⟨nb_bin_precondition_C10.1 19 (by norm_num),
   nb_bin_precondition_C10.2 id [[1]] 1 (by norm_num) (by simp)⟩

end LibraryMcd

namespace CompactPhases

/-- C6: for every call of `AgnosticPerfectC15Cluster` with `cluster_size`
strictly below the minimal cluster size, exactly one cluster center is
produced: it is placed at the supercell's geometric centroid
(`ceil(0.5*size)` in each coordinate) with the default type `'type1'`, and
no further centers are generated. -/
theorem agnostic_small_cluster_C6 (a0 scale_factor minimal_cluster_size cluster_size : ℚ)
    (h : cluster_size < minimal_cluster_size) :
    AgnosticPerfectC15Cluster a0 scale_factor minimal_cluster_size cluster_size [] =
      .ok (compute_cell_size_draft a0 scale_factor minimal_cluster_size,
        [(0, ⟨centroidRow (compute_cell_size_draft a0 scale_factor minimal_cluster_size),
          "type1"⟩)]) := by
  simp [AgnosticPerfectC15Cluster, h, dictSet]

/-- Witness for C6 at a concrete input (`a0 = 1`, `scale_factor = 1`,
minimal size 2, requested size 1). -/
theorem agnostic_small_cluster_C6_witness :
    (1 : ℚ) < 2
    ∧ AgnosticPerfectC15Cluster 1 1 2 1 [] =
      .ok (compute_cell_size_draft 1 1 2,
        [(0, ⟨centroidRow (compute_cell_size_draft 1 1 2), "type1"⟩)]) :=
  ⟨by norm_num, agnostic_small_cluster_C6 1 1 2 1 (by norm_num)⟩

/-- C4 (code bug): in the multi-cluster branch
(`cluster_size ≥ minimal_cluster_size`, which is positive), the generation
loop never produces any center beyond index 0: `random.shuffle` returns
`None`, the stored link list is `None`, and the first loop iteration raises
`TypeError` at `idx_C15 % len(self.explorated_dict['link'])`. -/
theorem agnostic_multi_cluster_raises_C4 (a0 scale_factor : ℚ)
    (minimal_cluster_size cluster_size : ℚ) (hmin : 0 < minimal_cluster_size)
    (hcs : minimal_cluster_size ≤ cluster_size) (centers : List (ℕ × C15Center)) :
    AgnosticPerfectC15Cluster a0 scale_factor minimal_cluster_size cluster_size centers =
      .error "TypeError: object of type NoneType has no len()" := by
  have hnotlt : ¬ cluster_size < minimal_cluster_size := not_lt.mpr hcs
  have h1 : (0 : ℚ) < cluster_size / minimal_cluster_size := by
    apply div_pos (lt_of_lt_of_le hmin hcs) hmin
  have hceil : 1 ≤ ⌈cluster_size / minimal_cluster_size⌉ := Int.ceil_pos.mpr h1
  have hNb : 1 < compute_number_perfect_C15 minimal_cluster_size cluster_size := by
    unfold compute_number_perfect_C15
    nlinarith
  simp [AgnosticPerfectC15Cluster, hnotlt, hNb]

/-- Witness for C4 at a concrete input (minimal size 2 ≤ requested size 3). -/
theorem agnostic_multi_cluster_raises_C4_witness :
    ((0 : ℚ) < 2 ∧ (2 : ℚ) ≤ 3)
    ∧ AgnosticPerfectC15Cluster 1 1 2 3 [] =
      .error "TypeError: object of type NoneType has no len()" :=
  ⟨⟨by norm_num, by norm_num⟩,
   agnostic_multi_cluster_raises_C4 1 1 2 3 (by norm_num) (by norm_num) []⟩

/-- C9 counterexample: the rescale exponent is the float literal `0.3333`,
not exactly `1/3`: at atom-count ratio `8/1` the exact cube root is `2`,
but the code's scale factor is `8^0.3333 ≠ 2`. -/
theorem length_scale_C9_counterexample :
    ((8 : ℝ) / 1) ^ ((1 : ℝ) / 3) = 2 ∧ lengthScale 8 1 ≠ 2 := by
  have h8 : ((8 : ℝ) / 1) = 8 := by norm_num
  have hcube : ((8 : ℝ) / 1) ^ ((1 : ℝ) / 3) = 2 := by
    rw [h8, show (8 : ℝ) = (2 : ℝ) ^ (3 : ℕ) by norm_num,
      ← Real.rpow_natCast (2 : ℝ) 3, ← Real.rpow_mul (by norm_num : (0 : ℝ) ≤ 2)]
    norm_num
  refine ⟨hcube, ?_⟩
  have hlt : lengthScale 8 1 < ((8 : ℝ) / 1) ^ ((1 : ℝ) / 3) := by
    unfold lengthScale
    push_cast
    rw [h8]
    exact (Real.rpow_lt_rpow_left_iff (by norm_num : (1 : ℝ) < 8)).mpr (by norm_num)
  rw [hcube] at hlt
  exact ne_of_lt hlt

/-- C9 amended: in `BuildC15Cluster` the merged system's cell entries are
rescaled by `(n_merged/n_bulk) ^ 0.3333 * a0`, with `n_merged` the sum of
the post-removal bulk count and the post-removal extra count — the exponent
is the float literal `0.3333`, an approximation of (but not exactly)
`1/3`. -/
theorem build_rescale_C9 (typeOcta : String → OctaType) (centers : List C15Center)
    (tolerance : ℚ) (bulk : List Pos) (cell a0 : ℝ) :
    buildC15RescaledCell typeOcta centers tolerance bulk cell a0 =
      cell * ((((remove_atoms_in_system typeOcta centers tolerance bulk).length : ℝ)
          + ((remove_atoms_in_system typeOcta centers tolerance
              (build_C15_system typeOcta centers tolerance)).length : ℝ))
        / (bulk.length : ℝ)) ^ (0.3333 : ℝ) * a0 := by
  unfold buildC15RescaledCell lengthScale
  push_cast
  norm_num

/-- `foldl min` is below `c` iff the seed or some element is. -/
lemma foldl_min_lt_iff (xs : List ℚ) (a c : ℚ) :
    xs.foldl min a < c ↔ a < c ∨ ∃ y ∈ xs, y < c := by
  induction xs generalizing a with
  | nil => simp
  | cons x t ih =>
    simp only [List.foldl_cons, ih, min_lt_iff, List.mem_cons]
    constructor
    · rintro ((h | h) | ⟨y, hy, hyc⟩)
      exacts [Or.inl h, Or.inr ⟨x, Or.inl rfl, h⟩, Or.inr ⟨y, Or.inr hy, hyc⟩]
    · rintro (h | ⟨y, rfl | hy, hyc⟩)
      exacts [Or.inl (Or.inl h), Or.inl (Or.inr hyc), Or.inr ⟨y, hy, hyc⟩]

/-- `np.amin` of a nonempty list is below `c` iff some element is. -/
lemma aminL_lt_iff (x : ℚ) (xs : List ℚ) (c : ℚ) :
    LibraryMcd.aminL (x :: xs) < c ↔ ∃ y ∈ x :: xs, y < c := by
  rw [show LibraryMcd.aminL (x :: xs) = xs.foldl min x from rfl, foldl_min_lt_iff,
    List.exists_mem_cons_iff]

/-- The `np.amin` duplicate test of `build_C15_system`, as an existential
over the previously accepted positions. -/
lemma amin_dist_lt_iff (q : Pos) (qs : List Pos) (p : Pos) (c : ℚ) :
    LibraryMcd.aminL ((q :: qs).map (fun r => distSq r p)) < c ↔
      ∃ r ∈ q :: qs, distSq r p < c := by
  rw [List.map_cons, aminL_lt_iff]
  constructor
  · rintro ⟨y, hy, hyc⟩
    rcases List.mem_cons.mp hy with rfl | hy'
    · exact ⟨q, List.mem_cons_self _ _, hyc⟩
    · obtain ⟨r, hr, rfl⟩ := List.mem_map.mp hy'
      exact ⟨r, List.mem_cons_of_mem _ hr, hyc⟩
  · rintro ⟨r, hr, hrc⟩
    rcases List.mem_cons.mp hr with rfl | hr'
    · exact ⟨distSq r p, List.mem_cons_self _ _, hrc⟩
    · exact ⟨distSq r p, List.mem_cons_of_mem _ (List.mem_map_of_mem _ hr'), hrc⟩

/-- Squared distances are nonnegative. -/
lemma distSq_nonneg (a b : Pos) : 0 ≤ distSq a b := by
  unfold distSq
  apply List.sum_nonneg
  intro x hx
  simp only [List.mem_map] at hx
  obtain ⟨y, -, rfl⟩ := hx
  exact mul_self_nonneg y

/-- C5: in `build_C15_system`, a candidate position is appended to the
accepted list if and only if its (Euclidean) distance to every previously
accepted position is at least the tolerance, and otherwise the accepted
list is left unchanged (the candidate is discarded as a duplicate); in
particular when the template sites of two centers coincide within the
tolerance, exactly one position is accepted for the pair, not two. -/
theorem build_C15_dedup_C5 (tolerance : ℚ) (htol : 0 ≤ tolerance) :
    (∀ (acc : List Pos) (p : Pos),
      (dedupStep tolerance acc p = acc ++ [p] ↔
        ∀ q ∈ acc, (tolerance : ℝ) ≤ Real.sqrt ((distSq q p : ℚ) : ℝ))
      ∧ (dedupStep tolerance acc p = acc ++ [p] ∨ dedupStep tolerance acc p = acc))
    ∧ (∀ (typeOcta : String → OctaType) (centers : List C15Center) (p1 p2 : Pos),
        c15Candidates typeOcta centers = [p1, p2] →
        distSq p1 p2 < tolerance ^ 2 →
        build_C15_system typeOcta centers tolerance = [p1]) := by
  have hsq : ∀ q p : Pos,
      ((tolerance : ℝ) ≤ Real.sqrt ((distSq q p : ℚ) : ℝ) ↔ tolerance ^ 2 ≤ distSq q p) := by
    intro q p
    rw [Real.le_sqrt (by exact_mod_cast htol) (by exact_mod_cast distSq_nonneg q p)]
    exact_mod_cast Iff.rfl
  constructor
  · intro acc p
    constructor
    · cases acc with
      | nil => simp [dedupStep]
      | cons q qs =>
        simp only [dedupStep]
        by_cases hC :
            LibraryMcd.aminL ((q :: qs).map (fun r => distSq r p)) < tolerance ^ 2
        · rw [if_pos hC]
          rw [amin_dist_lt_iff] at hC
          obtain ⟨r, hr, hrc⟩ := hC
          constructor
          · intro he
            exact absurd (congrArg List.length he) (by simp)
          · intro hall
            exact absurd hrc (not_lt.mpr ((hsq r p).mp (hall r hr)))
        · rw [if_neg hC]
          refine iff_of_true rfl ?_
          intro r hr
          rw [amin_dist_lt_iff] at hC
          push_neg at hC
          exact (hsq r p).mpr (hC r hr)
    · cases acc with
      | nil => left; simp [dedupStep]
      | cons q qs =>
        simp only [dedupStep]
        by_cases hC :
            LibraryMcd.aminL ((q :: qs).map (fun r => distSq r p)) < tolerance ^ 2
        · right; rw [if_pos hC]
        · left; rw [if_neg hC]
  · intro typeOcta centers p1 p2 hc hlt
    unfold build_C15_system
    rw [hc]
    simp only [List.foldl_cons, List.foldl_nil]
    have h1 : dedupStep tolerance [] p1 = [p1] := rfl
    rw [h1]
    simp only [dedupStep, List.map_cons, List.map_nil]
    rw [if_pos]
    simpa [LibraryMcd.aminL] using hlt

/-- Witness for C5 at a concrete input (`tolerance = 1/1000`). -/
theorem build_C15_dedup_C5_witness :
    (0 : ℚ) ≤ 1 / 1000
    ∧ ((∀ (acc : List Pos) (p : Pos),
      (dedupStep (1 / 1000) acc p = acc ++ [p] ↔
        ∀ q ∈ acc, ((1 / 1000 : ℚ) : ℝ) ≤ Real.sqrt ((distSq q p : ℚ) : ℝ))
      ∧ (dedupStep (1 / 1000) acc p = acc ++ [p] ∨ dedupStep (1 / 1000) acc p = acc))
    ∧ (∀ (typeOcta : String → OctaType) (centers : List C15Center) (p1 p2 : Pos),
        c15Candidates typeOcta centers = [p1, p2] →
        distSq p1 p2 < (1 / 1000 : ℚ) ^ 2 →
        build_C15_system typeOcta centers (1 / 1000) = [p1])) :=
  ⟨by norm_num, build_C15_dedup_C5 (1 / 1000) (by norm_num)⟩

/-- C7 (code bug), evaluated at the failing input: one center at the origin
whose template has removal offset `(1,2,3)` (among its six offsets, see
`scrambleOcta`), and a system holding a single atom exactly at `(1,2,3)`.
The claim requires this atom to be removed (it sits on a removal
coordinate: `(1,2,3)` is in the intended removal set, at squared distance
`0 < tolerance²`), but `remove_atoms_in_system` keeps it: the
`reshape((3, 6n)).T` of the `(n, 6, 3)` offset stack scrambles components
across offsets, so the compared removal coordinates are
`(1,13,25), (2,14,26), (3,15,27), (7,19,31), (8,20,32), (9,21,33)` instead
of the template's offsets. -/
theorem remove_atoms_scrambled_C7 :
    remove_atoms_in_system scrambleOcta [⟨[0, 0, 0], "type1"⟩] (1 / 1000) [[1, 2, 3]]
        = [[1, 2, 3]]
    ∧ [1, 2, 3] ∈ specRemoveCoordinate scrambleOcta [⟨[0, 0, 0], "type1"⟩]
    ∧ distSq [1, 2, 3] [1, 2, 3] < (1 / 1000 : ℚ) ^ 2
    ∧ toRemoveCoordinate scrambleOcta [⟨[0, 0, 0], "type1"⟩]
        = [[1, 13, 25], [2, 14, 26], [3, 15, 27], [7, 19, 31], [8, 20, 32], [9, 21, 33]] := by
  have hrange : List.range 6 = [0, 1, 2, 3, 4, 5] := rfl
  have hcoord : toRemoveCoordinate scrambleOcta [⟨[0, 0, 0], "type1"⟩]
      = [[1, 13, 25], [2, 14, 26], [3, 15, 27], [7, 19, 31], [8, 20, 32], [9, 21, 33]] := by
    norm_num [toRemoveCoordinate, toRemoveFlat, matT, scrambleOcta, rowAdd, hrange]
  refine ⟨?_, ?_, ?_, hcoord⟩
  · rw [remove_atoms_in_system, hcoord]
    norm_num [distSq]
  · norm_num [specRemoveCoordinate, matT, scrambleOcta, rowAdd, hrange]
  · norm_num [distSq]

/-- A record produced by `InputsParser` has both its entries iff its key
list is one of the two complete orders. -/
lemma keysComplete_iff (keys : List String)
    (h : keys ∈ [["center"], ["type"], ["center", "type"], ["type", "center"]]) :
    ("center" ∈ keys ∧ "type" ∈ keys) ↔
      (keys = ["type", "center"] ∨ keys = ["center", "type"]) := by
  simp only [List.mem_cons, List.not_mem_nil, or_false] at h
  rcases h with rfl | rfl | rfl | rfl <;> simp

/-- C8: for every center map parsed from the input file (each record's key
list comes from inserting `'center'` and/or `'type'` once, in either
order), `checkOutParser` returns normally iff every record has both its
`'type'` and its `'center'` entry, and any raised error message identifies
the offending record key. -/
theorem checkOutParser_C8 (m : List (ℕ × List String))
    (hshape : ∀ p ∈ m, p.2 ∈ [["center"], ["type"], ["center", "type"], ["type", "center"]]) :
    (checkOutParser m = .ok () ↔ ∀ p ∈ m, "center" ∈ p.2 ∧ "type" ∈ p.2)
    ∧ (∀ e, checkOutParser m = .error e →
        ∃ p ∈ m, ("center" ∉ p.2 ∨ "type" ∉ p.2)
          ∧ e = "Missing type or center for " ++ toString p.1) := by
  induction m with
  | nil => simp [checkOutParser]
  | cons q rest ih =>
    have hq := hshape q (List.mem_cons_self _ _)
    have hiff := keysComplete_iff q.2 hq
    have hrest := ih (fun p hp => hshape p (List.mem_cons_of_mem _ hp))
    obtain ⟨k, keys⟩ := q
    by_cases hok : keys = ["type", "center"] ∨ keys = ["center", "type"]
    · constructor
      · rw [show checkOutParser ((k, keys) :: rest) = checkOutParser rest from
          by simp [checkOutParser, hok]]
        rw [hrest.1]
        constructor
        · intro hall p hp
          rcases List.mem_cons.mp hp with rfl | h2
          · exact hiff.mpr hok
          · exact hall p h2
        · intro hall p hp
          exact hall p (List.mem_cons_of_mem _ hp)
      · intro e he
        rw [show checkOutParser ((k, keys) :: rest) = checkOutParser rest from
          by simp [checkOutParser, hok]] at he
        obtain ⟨p, hp, hmiss, he'⟩ := hrest.2 e he
        exact ⟨p, List.mem_cons_of_mem _ hp, hmiss, he'⟩
    · have hstep : checkOutParser ((k, keys) :: rest) =
          .error ("Missing type or center for " ++ toString k) := by
        simp [checkOutParser, hok]
      constructor
      · rw [hstep]
        constructor
        · intro h
          exact absurd h (by simp)
        · intro hall
          exact absurd (hiff.mp (hall (k, keys) (List.mem_cons_self _ _))) hok
      · intro e he
        rw [hstep] at he
        refine ⟨(k, keys), List.mem_cons_self _ _, ?_, ?_⟩
        · by_contra hcon
          push_neg at hcon
          exact hok (hiff.mp ⟨hcon.1, hcon.2⟩)
        · cases he
          rfl

/-- Witness for C8 at a concrete center map: record 0 complete, record 1
missing its `'type'` entry. -/
theorem checkOutParser_C8_witness :
    (∀ p ∈ [((0 : ℕ), ["center", "type"]), ((1 : ℕ), ["center"])],
      p.2 ∈ [["center"], ["type"], ["center", "type"], ["type", "center"]])
    ∧ ((checkOutParser [((0 : ℕ), ["center", "type"]), ((1 : ℕ), ["center"])] = .ok () ↔
        ∀ p ∈ [((0 : ℕ), ["center", "type"]), ((1 : ℕ), ["center"])],
          "center" ∈ p.2 ∧ "type" ∈ p.2)
    ∧ (∀ e, checkOutParser [((0 : ℕ), ["center", "type"]), ((1 : ℕ), ["center"])] = .error e →
        ∃ p ∈ [((0 : ℕ), ["center", "type"]), ((1 : ℕ), ["center"])],
          ("center" ∉ p.2 ∨ "type" ∉ p.2)
          ∧ e = "Missing type or center for " ++ toString p.1)) :=
  ⟨by simp, checkOutParser_C8 [((0 : ℕ), ["center", "type"]), ((1 : ℕ), ["center"])] (by simp)⟩

end CompactPhases

namespace LibraryMcd

/-- `foldl min` lower-bounds the seed and all elements. -/
lemma foldl_min_le (xs : List ℚ) (a : ℚ) :
    xs.foldl min a ≤ a ∧ ∀ y ∈ xs, xs.foldl min a ≤ y := by
  induction xs generalizing a with
  | nil => simp
  | cons x t ih =>
    refine ⟨le_trans (ih (min a x)).1 (min_le_left a x), ?_⟩
    intro y hy
    rcases List.mem_cons.mp hy with rfl | hy'
    · exact le_trans (ih (min a y)).1 (min_le_right a y)
    · exact (ih (min a x)).2 y hy'

/-- `np.amin` lower-bounds every element. -/
lemma aminL_le (l : List ℚ) (y : ℚ) (hy : y ∈ l) : aminL l ≤ y := by
  cases l with
  | nil => cases hy
  | cons x xs =>
    rcases List.mem_cons.mp hy with rfl | hy'
    · exact (foldl_min_le xs y).1
    · exact (foldl_min_le xs x).2 y hy'

/-- `foldl max` upper-bounds the seed and all elements. -/
lemma le_foldl_max (xs : List ℚ) (a : ℚ) :
    a ≤ xs.foldl max a ∧ ∀ y ∈ xs, y ≤ xs.foldl max a := by
  induction xs generalizing a with
  | nil => simp
  | cons x t ih =>
    refine ⟨le_trans (le_max_left a x) (ih (max a x)).1, ?_⟩
    intro y hy
    rcases List.mem_cons.mp hy with rfl | hy'
    · exact le_trans (le_max_right a y) (ih (max a y)).1
    · exact (ih (max a x)).2 y hy'

/-- `np.amax` upper-bounds every element. -/
lemma le_amaxL (l : List ℚ) (y : ℚ) (hy : y ∈ l) : y ≤ amaxL l := by
  cases l with
  | nil => cases hy
  | cons x xs =>
    rcases List.mem_cons.mp hy with rfl | hy'
    · exact (le_foldl_max xs y).1
    · exact (le_foldl_max xs x).2 y hy'

/-- Membership in the zip of ids (`range N`) with the norm array. -/
lemma mem_zip_range {l : List ℚ} {i : ℕ} {v : ℚ} :
    (i, v) ∈ (List.range l.length).zip l ↔ l[i]? = some v := by
  rw [← List.enum_eq_zip_range]
  exact List.mk_mem_enum_iff_getElem?

/-- An id is in bin `k`'s (shuffled) id list iff its norm passes bin `k`'s
mask. -/
lemma mem_binIds_iff {shuffle : List ℕ → List ℕ}
    (hsh : ∀ l, List.Perm (shuffle l) l) (d : List (List ℚ)) (B k i : ℕ) :
    (i ∈ binIds shuffle d B k) ↔
      ∃ v, (normsOf d)[i]? = some v
        ∧ binMask (binLo d B k) (binHi d B k) v = true := by
  have hlen : (normsOf d).length = d.length := by simp [normsOf]
  unfold binIds
  rw [List.Perm.mem_iff (hsh _)]
  constructor
  · intro h
    obtain ⟨p, hp, rfl⟩ := List.mem_map.mp h
    obtain ⟨hpz, hpm⟩ := List.mem_filter.mp hp
    refine ⟨p.2, ?_, hpm⟩
    rw [← mem_zip_range, hlen]
    exact hpz
  · rintro ⟨v, hv, hm⟩
    apply List.mem_map.mpr
    refine ⟨(i, v), List.mem_filter.mpr ⟨?_, hm⟩, rfl⟩
    rw [← hlen, mem_zip_range]
    exact hv

/-- For a value strictly between the global boundaries there is exactly one
bin interval `(m + k*inc, m + (k+1)*inc]` containing it. -/
lemma bin_interval_unique (m M : ℚ) (B : ℕ) (hB : 1 ≤ B) (hlt : m < M) (v : ℚ)
    (hv1 : m < v) (hv2 : v ≤ M) :
    ∃ k0 : ℕ, k0 < B ∧ ∀ k : ℕ,
      ((m + (k : ℚ) * ((M - m) / (B : ℚ)) < v
        ∧ v ≤ m + ((k : ℚ) + 1) * ((M - m) / (B : ℚ))) ↔ k = k0) := by
  have hBQ : (0 : ℚ) < (B : ℚ) := by exact_mod_cast Nat.lt_of_lt_of_le Nat.zero_lt_one hB
  set inc := (M - m) / (B : ℚ) with hinc_def
  have hinc : 0 < inc := div_pos (sub_pos.mpr hlt) hBQ
  set t := (v - m) / inc with ht_def
  have ht1 : 0 < t := div_pos (sub_pos.mpr hv1) hinc
  have hBinc : (B : ℚ) * inc = M - m := by
    rw [hinc_def]
    field_simp
  have htB : t ≤ (B : ℚ) := by
    rw [ht_def, div_le_iff hinc, hBinc]
    linarith
  have hceil1 : 1 ≤ ⌈t⌉ := by
    have := Int.ceil_pos.mpr ht1
    omega
  have hceilB : ⌈t⌉ ≤ (B : ℤ) := Int.ceil_le.mpr (by exact_mod_cast htB)
  have key : ∀ j : ℕ, (m + (j : ℚ) * inc < v ↔ (j : ℚ) < t)
      ∧ (v ≤ m + ((j : ℚ) + 1) * inc ↔ t ≤ (j : ℚ) + 1) := by
    intro j
    constructor
    · rw [ht_def, lt_div_iff hinc]
      constructor <;> intro h <;> linarith
    · rw [ht_def, div_le_iff hinc]
      constructor <;> intro h <;> linarith
  have hcast : (((⌈t⌉ - 1).toNat : ℕ) : ℚ) = (⌈t⌉ : ℚ) - 1 := by
    have h1 : (((⌈t⌉ - 1).toNat : ℕ) : ℤ) = ⌈t⌉ - 1 := Int.toNat_of_nonneg (by omega)
    exact_mod_cast congrArg (fun z : ℤ => (z : ℚ)) h1
  refine ⟨(⌈t⌉ - 1).toNat, by omega, fun k => ⟨?_, ?_⟩⟩
  · rintro ⟨h1, h2⟩
    have hk1 : (k : ℚ) < t := (key k).1.mp h1
    have hk2 : t ≤ (k : ℚ) + 1 := (key k).2.mp h2
    have hlt2 : (k : ℤ) < ⌈t⌉ := Int.lt_ceil.mpr (by exact_mod_cast hk1)
    have hle2 : ⌈t⌉ ≤ (k : ℤ) + 1 := Int.ceil_le.mpr (by exact_mod_cast hk2)
    omega
  · rintro rfl
    refine ⟨(key _).1.mpr ?_, (key _).2.mpr ?_⟩
    · rw [hcast]
      have := Int.ceil_lt_add_one t
      linarith
    · rw [hcast]
      have := Int.le_ceil t
      linarith

/-- `countP` over `range B` of a predicate holding exactly at one index
below `B`. -/
lemma countP_range_unique (B : ℕ) (p : ℕ → Bool) (k0 : ℕ) (hk0 : k0 < B)
    (h : ∀ k, k < B → (p k = true ↔ k = k0)) : (List.range B).countP p = 1 := by
  induction B with
  | zero => omega
  | succ n ih =>
    rw [List.range_succ, List.countP_append]
    by_cases hk : k0 = n
    · subst hk
      have h0 : (List.range k0).countP p = 0 := by
        apply List.countP_eq_zero.mpr
        intro a ha
        have haR := List.mem_range.mp ha
        intro hpa
        have := (h a (by omega)).mp hpa
        omega
      have hpn : p k0 = true := (h k0 (by omega)).mpr rfl
      simp [h0, List.countP_cons, hpn]
    · have hk0n : k0 < n := by omega
      have hrec := ih hk0n (fun k hkn => h k (by omega))
      have hnp : ¬ p n = true := fun hpn => hk ((h n (by omega)).mp hpn).symm
      simp [hrec, List.countP_cons, hnp]

/-- C1 counterexample: for the pool `[[0],[1],[2],[3]]` (squared norms
`[0,1,4,9]`) with 3 bins, the value `0` — equal to the global minimum — is
a member of **no** bin: the first bin's mask is strictly lower-exclusive
(`v > min_dis`), so id `0` appears in no bin's `list_id` and the norm `0`
in no bin's `list_norm`, contradicting "values equal to the global minimum
fall in bin 0" and "every value is a member of exactly one bin". -/
theorem histogram_bin_C1_counterexample :
    normsOf [[0], [1], [2], [3]] = [0, 1, 4, 9]
    ∧ aminL (normsOf [[0], [1], [2], [3]]) = 0
    ∧ (fill_histogram id (histoInit [[0], [1], [2], [3]] 3)).bins.length = 3
    ∧ (fill_histogram id (histoInit [[0], [1], [2], [3]] 3)).bins.countP
        (fun b => decide ((0 : ℕ) ∈ b.list_id)) = 0
    ∧ (fill_histogram id (histoInit [[0], [1], [2], [3]] 3)).bins.countP
        (fun b => decide ((0 : ℚ) ∈ b.list_norm)) = 0 := by
  refine ⟨by norm_num [normsOf, normSq], by norm_num [normsOf, normSq, aminL], ?_, ?_, ?_⟩ <;>
    norm_num [fill_histogram, histoInit, normsOf, normSq, aminL, amaxL, binMask,
      List.filter, List.range_succ, List.countP_cons]

/-- C1 amended: after `fill_histogram` (with `B ≥ 1` bins and distinct
global minimum and maximum), every squared-norm value *strictly above the
global minimum* is a member of exactly one bin, values *equal to the global
minimum* are a member of **no** bin (not of bin 0 as claimed), and the bin
boundaries partition `(global_min, global_max]` with no gaps: bin 0 starts
at the global minimum, bin `B-1` ends at the global maximum, and each bin's
upper boundary is the next bin's lower boundary. -/
theorem histogram_bin_membership_C1 (shuffle : List ℕ → List ℕ)
    (hsh : ∀ l, List.Perm (shuffle l) l) (d : List (List ℚ)) (B : ℕ) (hB : 1 ≤ B)
    (hmM : aminL (normsOf d) < amaxL (normsOf d)) :
    (∀ i : ℕ, ∀ v : ℚ, (normsOf d)[i]? = some v →
      (aminL (normsOf d) < v →
        (fill_histogram shuffle (histoInit d B)).bins.countP
          (fun b => decide (i ∈ b.list_id)) = 1)
      ∧ (v = aminL (normsOf d) →
        (fill_histogram shuffle (histoInit d B)).bins.countP
          (fun b => decide (i ∈ b.list_id)) = 0))
    ∧ ((fill_histogram shuffle (histoInit d B)).bins.map HBin.min
        = (List.range B).map (binLo d B))
    ∧ ((fill_histogram shuffle (histoInit d B)).bins.map HBin.max
        = (List.range B).map (binHi d B))
    ∧ binLo d B 0 = aminL (normsOf d)
    ∧ binHi d B (B - 1) = amaxL (normsOf d)
    ∧ (∀ k : ℕ, binHi d B k = binLo d B (k + 1)) := by
  have hBQ : (0 : ℚ) < (B : ℚ) := by
    have : 0 < B := by omega
    exact_mod_cast this
  have hinc : 0 < (amaxL (normsOf d) - aminL (normsOf d)) / (B : ℚ) :=
    div_pos (sub_pos.mpr hmM) hBQ
  refine ⟨?_, ?_, ?_, ?_, ?_, ?_⟩
  · intro i v hv
    have hvmem : v ∈ normsOf d := List.getElem?_mem hv
    have hvM : v ≤ amaxL (normsOf d) := le_amaxL _ _ hvmem
    constructor
    · intro hmv
      obtain ⟨k0, hk0B, hk0⟩ :=
        bin_interval_unique (aminL (normsOf d)) (amaxL (normsOf d)) B hB hmM v hmv hvM
      rw [fill_histoInit_bins, List.countP_map]
      apply countP_range_unique B _ k0 hk0B
      intro k hkB
      show (decide (i ∈ binIds shuffle d B k) = true) ↔ k = k0
      rw [decide_eq_true_eq, mem_binIds_iff hsh]
      constructor
      · rintro ⟨v', hv', hm⟩
        have hv'v : v' = v := by rw [hv] at hv'; exact (Option.some.inj hv').symm
        subst hv'v
        simp only [binMask, binLo, binHi, decide_eq_true_eq] at hm
        exact (hk0 k).mp hm
      · rintro rfl
        refine ⟨v, hv, ?_⟩
        simp only [binMask, binLo, binHi, decide_eq_true_eq]
        exact (hk0 k).mpr rfl
    · intro hveq
      rw [fill_histoInit_bins, List.countP_map]
      apply List.countP_eq_zero.mpr
      intro k _
      show ¬ (decide (i ∈ binIds shuffle d B k) = true)
      rw [decide_eq_true_eq, mem_binIds_iff hsh]
      rintro ⟨v', hv', hm⟩
      have hv'v : v' = v := by rw [hv] at hv'; exact (Option.some.inj hv').symm
      subst hv'v
      simp only [binMask, binLo, binHi, decide_eq_true_eq] at hm
      have hk0Q : (0 : ℚ) ≤ (k : ℚ) := by positivity
      nlinarith [hm.1]
  · rw [fill_histoInit_bins, List.map_map]
    rfl
  · rw [fill_histoInit_bins, List.map_map]
    rfl
  · simp [binLo]
  · have hcast : ((B - 1 : ℕ) : ℚ) = (B : ℚ) - 1 := by
      push_cast [Nat.cast_sub hB]
      ring
    have hB0 : (B : ℚ) ≠ 0 := ne_of_gt hBQ
    simp only [binHi, hcast]
    field_simp
  · intro k
    simp only [binHi, binLo]
    push_cast
    ring

/-- Witness for the amended C1 at a concrete input (pool `[[0],[1],[2],[3]]`,
three bins, identity shuffle). -/
theorem histogram_bin_membership_C1_witness :
    ((∀ l : List ℕ, List.Perm (id l) l) ∧ 1 ≤ 3
      ∧ aminL (normsOf [[0], [1], [2], [3]]) < amaxL (normsOf [[0], [1], [2], [3]]))
    ∧ ((∀ i : ℕ, ∀ v : ℚ, (normsOf [[0], [1], [2], [3]])[i]? = some v →
      (aminL (normsOf [[0], [1], [2], [3]]) < v →
        (fill_histogram id (histoInit [[0], [1], [2], [3]] 3)).bins.countP
          (fun b => decide (i ∈ b.list_id)) = 1)
      ∧ (v = aminL (normsOf [[0], [1], [2], [3]]) →
        (fill_histogram id (histoInit [[0], [1], [2], [3]] 3)).bins.countP
          (fun b => decide (i ∈ b.list_id)) = 0))
    ∧ ((fill_histogram id (histoInit [[0], [1], [2], [3]] 3)).bins.map HBin.min
        = (List.range 3).map (binLo [[0], [1], [2], [3]] 3))
    ∧ ((fill_histogram id (histoInit [[0], [1], [2], [3]] 3)).bins.map HBin.max
        = (List.range 3).map (binHi [[0], [1], [2], [3]] 3))
    ∧ binLo [[0], [1], [2], [3]] 3 0 = aminL (normsOf [[0], [1], [2], [3]])
    ∧ binHi [[0], [1], [2], [3]] 3 (3 - 1) = amaxL (normsOf [[0], [1], [2], [3]])
    ∧ (∀ k : ℕ, binHi [[0], [1], [2], [3]] 3 k = binLo [[0], [1], [2], [3]] 3 (k + 1))) :=
  ⟨⟨fun l => List.Perm.refl l, by norm_num,
      by norm_num [normsOf, normSq, aminL, amaxL]⟩,
   histogram_bin_membership_C1 id (fun l => List.Perm.refl l) [[0], [1], [2], [3]] 3
     (by norm_num) (by norm_num [normsOf, normSq, aminL, amaxL])⟩

/-- `np.amin ≤ np.amax`. -/
lemma aminL_le_amaxL (l : List ℚ) : aminL l ≤ amaxL l := by
  cases l with
  | nil => simp [aminL, amaxL]
  | cons x xs =>
    exact le_trans (aminL_le (x :: xs) x (List.mem_cons_self _ _))
      (le_amaxL (x :: xs) x (List.mem_cons_self _ _))

/-- A value passes the masks of at most one bin. -/
lemma bin_overlap_eq (d : List (List ℚ)) (B k k' : ℕ) (v : ℚ)
    (hk : binMask (binLo d B k) (binHi d B k) v = true)
    (hk' : binMask (binLo d B k') (binHi d B k') v = true) : k = k' := by
  have hmM : aminL (normsOf d) ≤ amaxL (normsOf d) := aminL_le_amaxL _
  have hBQ : (0 : ℚ) ≤ (B : ℚ) := by positivity
  have hinc : 0 ≤ (amaxL (normsOf d) - aminL (normsOf d)) / (B : ℚ) :=
    div_nonneg (by linarith) hBQ
  simp only [binMask, binLo, binHi, decide_eq_true_eq] at hk hk'
  by_contra hne
  rcases Nat.lt_or_ge k k' with h | h
  · have hle : ((k : ℚ) + 1) ≤ (k' : ℚ) := by exact_mod_cast h
    nlinarith [hk.2, hk'.1, mul_le_mul_of_nonneg_right hle hinc]
  · have h' : k' < k := by omega
    have hle : ((k' : ℚ) + 1) ≤ (k : ℚ) := by exact_mod_cast h'
    nlinarith [hk'.2, hk.1, mul_le_mul_of_nonneg_right hle hinc]

/-- Bin id lists are duplicate-free. -/
lemma binIds_nodup {shuffle : List ℕ → List ℕ} (hsh : ∀ l, List.Perm (shuffle l) l)
    (d : List (List ℚ)) (B k : ℕ) : (binIds shuffle d B k).Nodup := by
  apply ((hsh _).nodup_iff).mpr
  apply List.Nodup.sublist (List.Sublist.map Prod.fst (List.filter_sublist _))
  rw [List.map_fst_zip]
  · exact List.nodup_range _
  · simp [normsOf]

/-- Ids in a bin are pool indices. -/
lemma binIds_lt {shuffle : List ℕ → List ℕ} (hsh : ∀ l, List.Perm (shuffle l) l)
    (d : List (List ℚ)) (B k i : ℕ) (h : i ∈ binIds shuffle d B k) : i < d.length := by
  obtain ⟨v, hv, -⟩ := (mem_binIds_iff hsh d B k i).mp h
  have := (List.getElem?_eq_some.mp hv).1
  simpa [normsOf] using this

/-- After filling, the concatenation of all bins' id lists is
duplicate-free (each id lands in at most one bin, once). -/
lemma fill_flatten_nodup {shuffle : List ℕ → List ℕ}
    (hsh : ∀ l, List.Perm (shuffle l) l) (d : List (List ℚ)) (B : ℕ) :
    ((((fill_histogram shuffle (histoInit d B)).bins).map HBin.list_id).flatten).Nodup := by
  rw [fill_histoInit_bins, List.map_map]
  show ((List.range B).map (fun k => binIds shuffle d B k)).flatten.Nodup
  rw [List.nodup_flatten]
  constructor
  · intro l hl
    obtain ⟨k, -, rfl⟩ := List.mem_map.mp hl
    exact binIds_nodup hsh d B k
  · rw [List.pairwise_map]
    apply List.Pairwise.imp ?_ (List.pairwise_lt_range B)
    intro k k' hkk'
    intro i hik hik'
    obtain ⟨v, hv, hm⟩ := (mem_binIds_iff hsh d B k i).mp hik
    obtain ⟨v', hv', hm'⟩ := (mem_binIds_iff hsh d B k' i).mp hik'
    have hvv : v' = v := by
      rw [hv] at hv'
      exact (Option.some.inj hv').symm
    subst hvv
    exact absurd (bin_overlap_eq d B k k' v' hm hm') (Nat.ne_of_lt hkk')

/-- Popping the last element of the middle list into the selection
preserves the overall multiset. -/
lemma append_pop_perm (acc F1 F2 L : List ℕ) (x : ℕ) (hL : L.getLast? = some x) :
    List.Perm ((acc ++ [x]) ++ (F1 ++ (L.dropLast ++ F2)))
      (acc ++ (F1 ++ (L ++ F2))) := by
  have hdrop : L.dropLast ++ [x] = L := List.dropLast_append_getLast? x hL
  obtain ⟨D, rfl⟩ : ∃ D, L = D ++ [x] := ⟨L.dropLast, hdrop.symm⟩
  rw [List.dropLast_concat]
  simp only [List.append_assoc, List.singleton_append]
  refine List.Perm.append_left acc ?_
  have h : List.Perm (x :: ((F1 ++ D) ++ F2)) ((F1 ++ D) ++ x :: F2) :=
    List.perm_middle.symm
  simpa [List.append_assoc] using h

/-- One sampling draw preserves the multiset of selected-plus-remaining ids
and grows the selection by at most one. -/
lemma sampleStep_perm (bins : List HBin) (acc : List ℕ) (s : ℕ) :
    List.Perm ((sampleStep bins acc s).2 ++
        (((sampleStep bins acc s).1).map HBin.list_id).flatten)
      (acc ++ ((bins.map HBin.list_id).flatten))
    ∧ (sampleStep bins acc s).2.length ≤ acc.length + 1 := by
  unfold sampleStep
  split
  next => exact ⟨List.Perm.refl _, by simp⟩
  next b hb =>
    split
    next => exact ⟨List.Perm.refl _, by simp⟩
    next x hl =>
      have hs : s < bins.length := (List.getElem?_eq_some.mp hb).1
      have hbs : bins[s] = b := (List.getElem?_eq_some.mp hb).2
      have hdecomp : bins.take s ++ b :: bins.drop (s + 1) = bins := by
        rw [← hbs, List.getElem_cons_drop]
        exact List.take_append_drop s bins
      have hset := List.set_eq_take_cons_drop
        ({ b with list_id := b.list_id.dropLast }) hs
      constructor
      · show List.Perm ((acc ++ [x]) ++
          ((bins.set s { b with list_id := b.list_id.dropLast }).map HBin.list_id).flatten)
          (acc ++ ((bins.map HBin.list_id).flatten))
        rw [hset]
        conv_rhs => rw [← hdecomp]
        simp only [List.map_append, List.map_cons, List.flatten_append,
          List.flatten_cons]
        exact append_pop_perm acc _ _ b.list_id x hl
      · show (acc ++ [x]).length ≤ acc.length + 1
        simp

/-- The whole sampling loop preserves the multiset of
selected-plus-remaining ids and selects at most one id per draw. -/
lemma sampleFold_spec (sel : List ℕ) (bins : List HBin) (acc : List ℕ) :
    List.Perm ((sel.foldl (fun st s => sampleStep st.1 st.2 s) (bins, acc)).2 ++
        (((sel.foldl (fun st s => sampleStep st.1 st.2 s) (bins, acc)).1).map
          HBin.list_id).flatten)
      (acc ++ ((bins.map HBin.list_id).flatten))
    ∧ (sel.foldl (fun st s => sampleStep st.1 st.2 s) (bins, acc)).2.length
        ≤ acc.length + sel.length := by
  induction sel generalizing bins acc with
  | nil => exact ⟨List.Perm.refl _, by simp⟩
  | cons s rest ih =>
    simp only [List.foldl_cons]
    obtain ⟨hperm, hlen⟩ := sampleStep_perm bins acc s
    obtain ⟨ihp, ihl⟩ := ih (sampleStep bins acc s).1 (sampleStep bins acc s).2
    have hpair : ((sampleStep bins acc s).1, (sampleStep bins acc s).2)
        = sampleStep bins acc s := rfl
    rw [hpair] at ihp ihl
    refine ⟨ihp.trans hperm, ?_⟩
    simp only [List.length_cons]
    omega

/-- C2: `histogram_sample(k)` returns at most `k` ids and at most `k`
descriptor rows; the selected ids are duplicate-free pool indices; a draw
hitting a bin with empty `list_id` contributes nothing; and (concretely)
the returned size can be strictly less than `k`. -/
theorem histogram_sample_C2 (shuffle : List ℕ → List ℕ)
    (hsh : ∀ l, List.Perm (shuffle l) l) (d : List (List ℚ)) (B : ℕ) (sel : List ℕ) :
    ((histogram_sample (fill_histogram shuffle (histoInit d B)) sel).1.length ≤ sel.length
      ∧ (histogram_sample (fill_histogram shuffle (histoInit d B)) sel).2.length ≤ sel.length)
    ∧ (histogram_sample (fill_histogram shuffle (histoInit d B)) sel).1.Nodup
    ∧ (∀ i ∈ (histogram_sample (fill_histogram shuffle (histoInit d B)) sel).1,
        i ∈ (fill_histogram shuffle (histoInit d B)).id_list)
    ∧ (∀ (bins : List HBin) (acc : List ℕ) (s : ℕ) (b : HBin),
        bins[s]? = some b → b.list_id = [] → sampleStep bins acc s = (bins, acc))
    ∧ (histogram_sample (fill_histogram id (histoInit [[1], [2]] 1)) [0, 0, 0]).1.length
        < ([0, 0, 0] : List ℕ).length := by
  obtain ⟨hperm, hlen⟩ := sampleFold_spec sel (fill_histogram shuffle (histoInit d B)).bins []
  have hflat := fill_flatten_nodup hsh d B
  have hnodup_all : ((sel.foldl (fun st s => sampleStep st.1 st.2 s)
      ((fill_histogram shuffle (histoInit d B)).bins, [])).2 ++
      (((sel.foldl (fun st s => sampleStep st.1 st.2 s)
        ((fill_histogram shuffle (histoInit d B)).bins, [])).1).map
        HBin.list_id).flatten).Nodup := by
    apply hperm.nodup_iff.mpr
    simpa using hflat
  refine ⟨⟨?_, ?_⟩, ?_, ?_, ?_, ?_⟩
  · simpa [histogram_sample] using hlen
  · apply le_trans (List.length_filterMap_le _ _)
    simpa [histogram_sample] using hlen
  · exact hnodup_all.of_append_left
  · intro i hi
    have hi2 : i ∈ ((fill_histogram shuffle (histoInit d B)).bins.map HBin.list_id).flatten := by
      have := hperm.mem_iff.mp (List.mem_append_left _ hi)
      simpa using this
    obtain ⟨l, hl, hil⟩ := List.mem_flatten.mp hi2
    obtain ⟨bin, hbin, rfl⟩ := List.mem_map.mp hl
    rw [fill_histoInit_bins] at hbin
    obtain ⟨k, -, rfl⟩ := List.mem_map.mp hbin
    have hlt : i < d.length := binIds_lt hsh d B k i hil
    show i ∈ List.range d.length
    exact List.mem_range.mpr hlt
  · intro bins acc s b hb hempty
    simp [sampleStep, hb, hempty]
  · norm_num [histogram_sample, sampleStep, fill_histogram, histoInit, normsOf,
      normSq, aminL, amaxL, binMask, List.filter, List.range_succ]

/-- Witness for C2 at a concrete input (identity shuffle, two one-entry
descriptors, one bin, three draws of bin 0). -/
theorem histogram_sample_C2_witness :
    (∀ l : List ℕ, List.Perm (id l) l)
    ∧ (((histogram_sample (fill_histogram id (histoInit [[1], [2]] 1)) [0, 0, 0]).1.length
          ≤ ([0, 0, 0] : List ℕ).length)
      ∧ (histogram_sample (fill_histogram id (histoInit [[1], [2]] 1)) [0, 0, 0]).2.length
          ≤ ([0, 0, 0] : List ℕ).length)
    ∧ (histogram_sample (fill_histogram id (histoInit [[1], [2]] 1)) [0, 0, 0]).1.Nodup
    ∧ (∀ i ∈ (histogram_sample (fill_histogram id (histoInit [[1], [2]] 1)) [0, 0, 0]).1,
        i ∈ (fill_histogram id (histoInit [[1], [2]] 1)).id_list)
    ∧ (∀ (bins : List HBin) (acc : List ℕ) (s : ℕ) (b : HBin),
        bins[s]? = some b → b.list_id = [] → sampleStep bins acc s = (bins, acc))
    ∧ (histogram_sample (fill_histogram id (histoInit [[1], [2]] 1)) [0, 0, 0]).1.length
        < ([0, 0, 0] : List ℕ).length :=
  ⟨fun l => List.Perm.refl l,
   histogram_sample_C2 id (fun l => List.Perm.refl l) [[1], [2]] 1 [0, 0, 0]⟩

end LibraryMcd
